import Mathlib

/-
Verification of the tinqerjs.org documentation-site generator
(src/build.js): a shallow embedding of the page-rendering pipeline
(slug function, heading extraction, table-of-contents synthesis,
breadcrumb / pager furniture, template placeholder substitution)
together with proofs of its specified properties.

Strings are modelled as lists of Unicode scalar values (List Char).
-/

namespace SiteBuild

/-- Characters matched by the JavaScript regex class \s and removed by
String.prototype.trim: ASCII whitespace, NBSP, the Unicode space
separators, line/paragraph separators, narrow NBSP, MMSP, ideographic
space, and the BOM. -/
def jsIsWhitespace (c : Char) : Bool :=
  c == ' ' || c == '\t' || c == '\n' || c == '\u000B' || c == '\u000C' ||
  c == '\r' || c == ' ' || c == ' ' ||
  (decide (8192 ≤ c.toNat) && decide (c.toNat ≤ 8202)) ||
  c == ' ' || c == ' ' || c == ' ' || c == ' ' ||
  c == '　' || c == '﻿'

/-- Model of String.prototype.trim: remove leading and trailing
whitespace. -/
def jsTrim (s : List Char) : List Char :=
  ((s.dropWhile jsIsWhitespace).reverse.dropWhile jsIsWhitespace).reverse

/-- Model of String.prototype.toLowerCase on the ASCII fragment (the
only fragment the simple case mappings of this pipeline exercise). -/
def jsToLower (c : Char) : Char :=
  if c.isUpper then Char.ofNat (c.toNat + 32) else c

/-- Scanner model of String.prototype.replace with the global regex
/\s+/ and replacement "-": walk the string left to right; the first
character of each whitespace run emits a hyphen, the remaining
characters of the run (flag set) emit nothing. -/
def replaceWsRunsAux : Bool → List Char → List Char
  | _, [] => []
  | inRun, c :: cs =>
    if jsIsWhitespace c then
      (if inRun then [] else ['-']) ++ replaceWsRunsAux true cs
    else c :: replaceWsRunsAux false cs

/-- Model of s.replace of the global whitespace-run regex by "-". -/
def replaceWsRuns (s : List Char) : List Char :=
  replaceWsRunsAux false s

/-- Characters encodeURIComponent leaves unescaped:
A-Z a-z 0-9 - _ . ! ~ * ' ( ). -/
def ecUnreserved (c : Char) : Bool :=
  c.isAlpha || c.isDigit ||
  ([ '-', '_', '.', '!', '~', '*', Char.ofNat 39, '(', ')' ].contains c)

/-- Uppercase hexadecimal digit for a value below 16. -/
def hexUpper (n : Nat) : Char :=
  if n < 10 then Char.ofNat (48 + n) else Char.ofNat (55 + n)

/-- Percent-escape of one byte, uppercase hex as encodeURIComponent
produces it. -/
def pctByte (b : Nat) : List Char :=
  ['%', hexUpper (b / 16), hexUpper (b % 16)]

/-- UTF-8 bytes of a Unicode scalar value. -/
def utf8Bytes (n : Nat) : List Nat :=
  if n < 128 then [n]
  else if n < 2048 then [192 + n / 64, 128 + n % 64]
  else if n < 65536 then [224 + n / 4096, 128 + (n / 64) % 64, 128 + n % 64]
  else [240 + n / 262144, 128 + (n / 4096) % 64, 128 + (n / 64) % 64, 128 + n % 64]

/-- Model of encodeURIComponent: unreserved characters pass through,
every other character is replaced by the percent-escapes of its UTF-8
bytes. -/
def encodeURIComponent (s : List Char) : List Char :=
  (s.map (fun c =>
    if ecUnreserved c then [c] else ((utf8Bytes c.toNat).map pctByte).flatten)).flatten

/-- The slug function of src/build.js:
encodeURIComponent(String(s).trim().toLowerCase()
  .replace(backslash-dot global, "").replace(whitespace-run global, "-")). -/
def slugify (s : List Char) : List Char :=
  encodeURIComponent (replaceWsRuns (((jsTrim s).map jsToLower).filter (fun c => c != '.')))

/-- Maximal-run splitter, written from the wording of the spec: the
string decomposes into the segments lying between maximal whitespace
runs (segments at the ends may be empty). -/
def splitOnWsRuns : List Char → List (List Char)
  | [] => [[]]
  | [c] => if jsIsWhitespace c then [[], []] else [[c]]
  | c :: d :: cs =>
    if jsIsWhitespace c then
      if jsIsWhitespace d then splitOnWsRuns (d :: cs)
      else [] :: splitOnWsRuns (d :: cs)
    else
      match splitOnWsRuns (d :: cs) with
      | seg :: rest => (c :: seg) :: rest
      | [] => [[c]]

/-- Join segments with a single hyphen between consecutive segments. -/
def joinHyphen : List (List Char) → List Char
  | [] => []
  | [seg] => seg
  | seg :: rest => seg ++ '-' :: joinHyphen rest

/-- Spec wording of the whitespace step: each maximal run of
whitespace is replaced by a single hyphen. -/
def hyphenateRunsSpec (s : List Char) : List Char :=
  joinHyphen (splitOnWsRuns s)

/-- The slug algorithm as the spec words it: trim surrounding
whitespace, then lowercase, then remove all literal period characters,
then replace each maximal run of whitespace with a single hyphen, then
percent-encode the result as encodeURIComponent does. -/
def slugifySpec (s : List Char) : List Char :=
  encodeURIComponent (hyphenateRunsSpec (((jsTrim s).map jsToLower).filter (fun c => c != '.')))

/-- A markdown-it token as used by build.js: a type tag such as
"heading_open", an HTML tag such as "h2", and the text content (carried
by the inline token that follows a heading_open token). -/
structure Token where
  type : List Char
  tag : List Char
  content : List Char
deriving DecidableEq

/-- The token type string of heading-opening tokens. -/
def headingOpenT : List Char := "heading_open".toList

/-- Value of a list of decimal digits. -/
def digitsVal (ds : List Char) : Nat :=
  ds.foldl (fun a c => a * 10 + (c.toNat - 48)) 0

/-- Maximal leading run of decimal digits; none when there is no
digit, matching the NaN result of parseInt. -/
def parseDigits (s : List Char) : Option Nat :=
  let ds := s.takeWhile Char.isDigit
  if ds = [] then none else some (digitsVal ds)

/-- Model of JavaScript parseInt with no radix argument on the inputs
this pipeline produces: skip leading whitespace, read an optional
sign, then the maximal run of decimal digits; no digits means NaN
(none). The automatic hexadecimal prefix detection of parseInt is not
modelled, as the heading tags h1..h6 never trigger it. -/
def jsParseInt (s : List Char) : Option Int :=
  let s1 := s.dropWhile jsIsWhitespace
  match s1 with
  | c :: rest =>
    if c = '-' then (parseDigits rest).map (fun n => -(n : Int))
    else if c = '+' then (parseDigits rest).map (fun n => (n : Int))
    else (parseDigits s1).map (fun n => (n : Int))
  | [] => none

/-- A heading record collected for the table of contents:
{ level, content, id } as pushed by extractHeadings. -/
structure Heading where
  level : Int
  content : List Char
  id : List Char
deriving DecidableEq

/-- extractHeadings of build.js: walk the token array; at every
heading_open token read the level from the tag (parseInt of the tag
without its first character) and the text from the content of the
following token - an access that throws when no token follows, which
the embedding makes explicit as none - and keep the levels 2 and 3.
The slug of the text is stored as the id. -/
def extractHeadings : List Token → Option (List Heading)
  | [] => some []
  | t :: rest =>
    if t.type = headingOpenT then
      match rest with
      | [] => none
      | next :: _ =>
        match jsParseInt (t.tag.drop 1) with
        | some l =>
          if 2 ≤ l ∧ l ≤ 3 then
            (extractHeadings rest).map (fun hs =>
              ⟨l, next.content, slugify next.content⟩ :: hs)
          else extractHeadings rest
        | none => extractHeadings rest
    else extractHeadings rest

/-- Modelled from the spec: the Anchor Injector (the markdown-it-anchor
plugin, configured in build.js with the shared slugify function but
itself not part of this repository) attaches to every rendered heading
an id computed by applying the slug function to the heading text, the
text carried by the token following the heading_open token. This lists
those ids in document order. -/
def anchorIds : List Token → List (List Char)
  | [] => []
  | t :: rest =>
    if t.type = headingOpenT then
      (match rest with
       | next :: _ => [slugify next.content]
       | [] => []) ++ anchorIds rest
    else anchorIds rest

/-- Token stream of a document consisting only of headings, in the
shape markdown-it produces: heading_open, inline (carrying the text),
heading_close for each heading. Levels are single digits. -/
def tokensOfHeadings : List (Nat × List Char) → List Token
  | [] => []
  | (l, text) :: rest =>
    ⟨headingOpenT, ['h', Char.ofNat (48 + l)], []⟩
    :: ⟨"inline".toList, [], text⟩
    :: ⟨"heading_close".toList, ['h', Char.ofNat (48 + l)], []⟩
    :: tokensOfHeadings rest

/-- One list item of the table of contents, as generateTOC builds it:
a li (with the toc-sub class exactly when the level is 3) holding a
link to #id displaying the heading text. -/
def tocEntry (h : Heading) : List Char :=
  "  <li".toList
  ++ (if h.level = 3 then " class=\"toc-sub\"".toList else [])
  ++ "><a href=\"#".toList ++ h.id ++ "\">".toList ++ h.content
  ++ "</a></li>\n".toList

/-- Opening of the TOC fragment. -/
def tocHeader : List Char := "<nav class=\"toc\">\n<h2>On This Page</h2>\n<ul>\n".toList

/-- Closing of the TOC fragment. -/
def tocFooter : List Char := "</ul>\n</nav>".toList

/-- generateTOC of build.js: the empty string for no headings,
otherwise the header, one entry appended per heading in order, and the
footer. -/
def generateTOC (headings : List Heading) : List Char :=
  if headings.length = 0 then []
  else (headings.foldl (fun toc h => toc ++ tocEntry h) tocHeader) ++ tocFooter

/-- A page manifest entry of build.js: destination file name, page
title, and navigation label. The markdown source path, being pure
filesystem configuration, plays no role in the fragment generators
modelled here. -/
structure Page where
  dest : List Char
  title : List Char
  nav : List Char
deriving DecidableEq

/-- The fixed page manifest of build.js, in its order. -/
def sitePages : List Page :=
  [ ⟨"index.html".toList, "Getting Started".toList, "Getting Started".toList⟩,
    ⟨"guide.html".toList, "Guide".toList, "Guide".toList⟩,
    ⟨"api-reference.html".toList, "API Reference".toList, "API Reference".toList⟩,
    ⟨"adapters.html".toList, "Adapters".toList, "Adapters".toList⟩,
    ⟨"development.html".toList, "Development".toList, "Development".toList⟩,
    ⟨"architecture.html".toList, "Architecture".toList, "Architecture".toList⟩ ]

/-- The breadcrumb of the home page. -/
def breadcrumbHome : List Char :=
  "<div class=\"breadcrumb\"><span>Home</span></div>".toList

/-- The Home / title breadcrumb trail of every non-home page: a Home
link, a separating slash, then the page title. -/
def breadcrumbTrail (pageTitle : List Char) : List Char :=
  "<div class=\"breadcrumb\"><a href=\"index.html\">Home</a> / <span>".toList
  ++ pageTitle ++ "</span></div>".toList

/-- generateBreadcrumb of build.js: the title Getting Started (the
first manifest entry) gets the bare Home breadcrumb, every other title
the Home / title trail. -/
def generateBreadcrumb (pageTitle : List Char) : List Char :=
  if pageTitle = "Getting Started".toList then breadcrumbHome
  else breadcrumbTrail pageTitle

/-- Opening of the pager fragment. -/
def pageNavHeader : List Char := "<footer class=\"page-nav\">\n".toList

/-- The empty placeholder rendered for an absent pager link. -/
def emptySlot : List Char := "  <span></span>\n".toList

/-- The previous-page link of the pager. -/
def prevLink (p : Page) : List Char :=
  "  <a href=\"".toList ++ p.dest ++ "\" class=\"prev\">← ".toList
  ++ p.nav ++ "</a>\n".toList

/-- The next-page link of the pager. -/
def nextLink (p : Page) : List Char :=
  "  <a href=\"".toList ++ p.dest ++ "\" class=\"next\">".toList
  ++ p.nav ++ " →</a>\n".toList

/-- Closing of the pager fragment. -/
def pageNavFooter : List Char := "</footer>".toList

/-- generatePageNav of build.js, with the module-level pages array as
an explicit argument: previous is the manifest entry before
currentIndex when currentIndex > 0, next the entry after it when
currentIndex < length - 1; an absent entry renders the empty
placeholder. The out-of-range lookup of the pages array yields
undefined, which the if treats like null; List.get? models this. -/
def generatePageNav (pages : List Page) (currentIndex : Nat) : List Char :=
  let prev := if currentIndex > 0 then pages.get? (currentIndex - 1) else none
  let next := if currentIndex < pages.length - 1 then pages.get? (currentIndex + 1) else none
  pageNavHeader
  ++ (match prev with
      | some p => prevLink p
      | none => emptySlot)
  ++ (match next with
      | some p => nextLink p
      | none => emptySlot)
  ++ pageNavFooter

/-- Model of String.prototype.replace with a plain string pattern: only
the first occurrence of the pattern is replaced; a string with no
occurrence is returned unchanged. -/
def jsReplaceFirst (pat repl : List Char) : List Char → List Char
  | [] => if pat.isPrefixOf ([] : List Char) then repl ++ ([] : List Char) else []
  | c :: cs =>
    if pat.isPrefixOf (c :: cs) then repl ++ ((c :: cs).drop pat.length)
    else c :: jsReplaceFirst pat repl cs

/-- Whether pat occurs as a contiguous substring. -/
def containsSub (pat : List Char) : List Char → Bool
  | [] => pat.isPrefixOf ([] : List Char)
  | c :: cs => pat.isPrefixOf (c :: cs) || containsSub pat cs

/-- The placeholder tokens of the template. -/
def phTITLE : List Char := "\x7b\x7bTITLE\x7d\x7d".toList

/-- Navigation placeholder. -/
def phNAV : List Char := "\x7b\x7bNAV\x7d\x7d".toList

/-- Breadcrumb placeholder. -/
def phBREADCRUMB : List Char := "\x7b\x7bBREADCRUMB\x7d\x7d".toList

/-- Table-of-contents placeholder. -/
def phTOC : List Char := "\x7b\x7bTOC\x7d\x7d".toList

/-- Body content placeholder. -/
def phCONTENT : List Char := "\x7b\x7bCONTENT\x7d\x7d".toList

/-- Pager placeholder. -/
def phPAGENAV : List Char := "\x7b\x7bPAGE_NAV\x7d\x7d".toList

/-- The placeholder-substitution part of buildPage in build.js: the six
replace calls on the template text, in source order. -/
def composeTemplate (tpl title nav breadcrumb toc content pageNav : List Char) : List Char :=
  jsReplaceFirst phPAGENAV pageNav
    (jsReplaceFirst phCONTENT content
      (jsReplaceFirst phTOC toc
        (jsReplaceFirst phBREADCRUMB breadcrumb
          (jsReplaceFirst phNAV nav
            (jsReplaceFirst phTITLE title tpl)))))

/-- A small template holding five of the six placeholders once each;
the table-of-contents placeholder is absent. -/
def tplNoToc : List Char :=
  "<html>\x7b\x7bTITLE\x7d\x7d|\x7b\x7bNAV\x7d\x7d|\x7b\x7bBREADCRUMB\x7d\x7d|\x7b\x7bCONTENT\x7d\x7d|\x7b\x7bPAGE_NAV\x7d\x7d</html>".toList

/-- The precondition under which the tokens[i+1] access of
extractHeadings stays in bounds: every heading_open token is followed
by at least one more token. -/
def wellFormedHeadings (ts : List Token) : Prop :=
  ∀ i (h : i < ts.length), (ts.get ⟨i, h⟩).type = headingOpenT → i + 1 < ts.length

/-- The characters every step of the slug pipeline leaves unchanged:
lowercase ASCII letters, decimal digits, and the URI-unreserved
punctuation other than the period. -/
def safeChars : List Char :=
  "abcdefghijklmnopqrstuvwxyz0123456789-_!~*()".toList ++ [Char.ofNat 39]

/-- Whether a character belongs to safeChars. -/
def slugSafeChar (c : Char) : Bool :=
  decide (c ∈ safeChars)

/-- The pager fragment of a one-page manifest: two empty placeholders
between header and footer. -/
def pagerEmpty : List Char :=
  pageNavHeader ++ emptySlot ++ emptySlot ++ pageNavFooter

theorem replaceWsRunsAux_true (cs : List Char) :
    replaceWsRunsAux true cs = replaceWsRunsAux false (cs.dropWhile jsIsWhitespace) := by
  induction cs with
  | nil => rfl
  | cons c cs ih =>
    by_cases hc : jsIsWhitespace c
    · simp [replaceWsRunsAux, hc, List.dropWhile_cons, ih]
    · simp [replaceWsRunsAux, hc, List.dropWhile_cons]

theorem splitOnWsRuns_ne_nil (s : List Char) : splitOnWsRuns s ≠ [] := by
  induction s with
  | nil => simp [splitOnWsRuns]
  | cons c cs ih =>
    cases cs with
    | nil =>
      by_cases hc : jsIsWhitespace c <;> simp [splitOnWsRuns, hc]
    | cons d ds =>
      by_cases hc : jsIsWhitespace c
      · by_cases hd : jsIsWhitespace d
        · simpa [splitOnWsRuns, hc, hd] using ih
        · simp [splitOnWsRuns, hc, hd]
      · cases h : splitOnWsRuns (d :: ds) with
        | nil => exact absurd h ih
        | cons seg rest => simp [splitOnWsRuns, hc, h]

theorem splitOnWsRuns_cons_ws : ∀ (cs : List Char) (c : Char), jsIsWhitespace c = true →
    splitOnWsRuns (c :: cs) = [] :: splitOnWsRuns (cs.dropWhile jsIsWhitespace) := by
  intro cs
  induction cs with
  | nil => intro c hc; simp [splitOnWsRuns, hc]
  | cons d ds ih =>
    intro c hc
    by_cases hd : jsIsWhitespace d
    · rw [List.dropWhile_cons_of_pos hd]
      rw [← ih d hd]
      simp [splitOnWsRuns, hc, hd]
    · rw [List.dropWhile_cons_of_neg hd]
      simp [splitOnWsRuns, hc, hd]

theorem splitOnWsRuns_cons_nonws (c : Char) (cs : List Char) (hc : jsIsWhitespace c = false)
    (seg : List Char) (rest : List (List Char)) (hsr : splitOnWsRuns cs = seg :: rest) :
    splitOnWsRuns (c :: cs) = (c :: seg) :: rest := by
  cases cs with
  | nil =>
    simp [splitOnWsRuns] at hsr
    simp [splitOnWsRuns, hc, ← hsr.1, ← hsr.2]
  | cons d ds => simp [splitOnWsRuns, hc, hsr]

theorem replaceWsRuns_eq_join : ∀ (n : Nat) (s : List Char), s.length ≤ n →
    replaceWsRunsAux false s = joinHyphen (splitOnWsRuns s) := by
  intro n
  induction n with
  | zero =>
    intro s hs
    have : s = [] := List.length_eq_zero.mp (Nat.le_zero.mp hs)
    subst this; rfl
  | succ n ih =>
    intro s hs
    cases s with
    | nil => rfl
    | cons c cs =>
      by_cases hc : jsIsWhitespace c
      · have hlen : (cs.dropWhile jsIsWhitespace).length ≤ n := by
          have hsub := (List.dropWhile_sublist (l := cs) (p := jsIsWhitespace)).length_le
          simp at hs; omega
        rw [splitOnWsRuns_cons_ws cs c hc]
        obtain ⟨r, rs, hr⟩ : ∃ r rs, splitOnWsRuns (cs.dropWhile jsIsWhitespace) = r :: rs := by
          cases h : splitOnWsRuns (cs.dropWhile jsIsWhitespace) with
          | nil => exact absurd h (splitOnWsRuns_ne_nil _)
          | cons r rs => exact ⟨r, rs, rfl⟩
        rw [hr]
        show replaceWsRunsAux false (c :: cs) = [] ++ '-' :: joinHyphen (r :: rs)
        simp only [replaceWsRunsAux, hc, if_true, List.nil_append]
        rw [replaceWsRunsAux_true, ih _ hlen, hr]
        rfl
      · simp only [replaceWsRunsAux, hc, Bool.false_eq_true, if_false]
        have hlen : cs.length ≤ n := by simp at hs; omega
        obtain ⟨seg, rest, hsr⟩ : ∃ seg rest, splitOnWsRuns cs = seg :: rest := by
          cases h : splitOnWsRuns cs with
          | nil => exact absurd h (splitOnWsRuns_ne_nil _)
          | cons seg rest => exact ⟨seg, rest, rfl⟩
        rw [ih cs hlen,
          splitOnWsRuns_cons_nonws c cs (Bool.of_not_eq_true hc) seg rest hsr, hsr]
        cases rest with
        | nil => rfl
        | cons r rs => simp [joinHyphen]

/-- C2. The slug function of build.js computes exactly the pipeline the
spec words: trim surrounding whitespace, lowercase, remove every
literal period, replace each maximal whitespace run with one hyphen,
then percent-encode the result as encodeURIComponent does. -/
theorem slugify_eq_spec_pipeline (s : List Char) : slugify s = slugifySpec s := by
  unfold slugify slugifySpec hyphenateRunsSpec replaceWsRuns
  rw [replaceWsRuns_eq_join (((jsTrim s).map jsToLower).filter (fun c => c != '.')).length _ (Nat.le_refl _)]

theorem safeChars_props : ∀ c ∈ safeChars,
    jsIsWhitespace c = false ∧ jsToLower c = c ∧ (c != '.') = true ∧ ecUnreserved c = true := by
  decide

theorem dropWhile_nonws (l : List Char) (h : ∀ c ∈ l, jsIsWhitespace c = false) :
    l.dropWhile jsIsWhitespace = l := by
  cases l with
  | nil => rfl
  | cons c cs =>
    rw [List.dropWhile_cons_of_neg]
    simp [h c (by simp)]

theorem jsTrim_fixed (l : List Char) (h : ∀ c ∈ l, jsIsWhitespace c = false) :
    jsTrim l = l := by
  unfold jsTrim
  rw [dropWhile_nonws l h,
    dropWhile_nonws _ (fun c hc => h c (List.mem_reverse.mp hc)),
    List.reverse_reverse]

theorem map_toLower_fixed (l : List Char) (h : ∀ c ∈ l, jsToLower c = c) :
    l.map jsToLower = l := by
  induction l with
  | nil => rfl
  | cons c cs ih =>
    simp only [List.map_cons, h c (by simp), ih (fun d hd => h d (by simp [hd]))]

theorem replaceWsRunsAux_fixed (l : List Char) (h : ∀ c ∈ l, jsIsWhitespace c = false) :
    replaceWsRunsAux false l = l := by
  induction l with
  | nil => rfl
  | cons c cs ih =>
    simp only [replaceWsRunsAux, h c (by simp), Bool.false_eq_true, if_false]
    rw [ih (fun d hd => h d (by simp [hd]))]

theorem encode_fixed (l : List Char) (h : ∀ c ∈ l, ecUnreserved c = true) :
    encodeURIComponent l = l := by
  induction l with
  | nil => rfl
  | cons c cs ih =>
    have hrec := ih (fun d hd => h d (by simp [hd]))
    unfold encodeURIComponent at hrec ⊢
    simp only [List.map_cons, List.flatten_cons, h c (by simp), if_true, hrec]
    rfl

theorem slugify_fixed (t : List Char) (h : (t.all slugSafeChar) = true) : slugify t = t := by
  have hmem : ∀ c ∈ t, c ∈ safeChars := by
    intro c hc
    exact of_decide_eq_true ((List.all_eq_true.mp h) c hc)
  have h1 : ∀ c ∈ t, jsIsWhitespace c = false := fun c hc => (safeChars_props c (hmem c hc)).1
  have h2 : ∀ c ∈ t, jsToLower c = c := fun c hc => (safeChars_props c (hmem c hc)).2.1
  have h3 : ∀ c ∈ t, (c != '.') = true := fun c hc => (safeChars_props c (hmem c hc)).2.2.1
  have h4 : ∀ c ∈ t, ecUnreserved c = true := fun c hc => (safeChars_props c (hmem c hc)).2.2.2
  unfold slugify replaceWsRuns
  rw [jsTrim_fixed t h1, map_toLower_fixed t h2, List.filter_eq_self.mpr h3,
    replaceWsRunsAux_fixed t h1]
  exact encode_fixed t h4

/-- C3 (amended). The slug function is deterministic, and idempotent on
every input whose slug consists only of characters the pipeline leaves
unchanged (lowercase ASCII letters, digits, and URI-unreserved
punctuation other than the period); full idempotence fails because
percent-escapes introduced by encoding are re-encoded on a second
application. -/
theorem slugify_deterministic_and_cond_idempotent :
    (∀ s : List Char, slugify s = slugify s) ∧
    (∀ s : List Char, ((slugify s).all slugSafeChar) = true →
      slugify (slugify s) = slugify s) :=
  ⟨fun _ => rfl, fun s h => slugify_fixed (slugify s) h⟩

/-- C3 counterexample: the slug of "#" is "%23", whose slug is "%2523",
so re-applying the slug function to its own output changes it. -/
theorem slugify_not_idempotent_on_hash :
    slugify (slugify ("#".toList)) ≠ slugify ("#".toList) := by decide

/-- C3 witness: a concrete safe input on which the conditional
idempotence theorem applies. -/
theorem slugify_cond_idempotent_witness :
    ((slugify ("abc".toList)).all slugSafeChar) = true ∧
    slugify (slugify ("abc".toList)) = slugify ("abc".toList) :=
  ⟨by decide, slugify_deterministic_and_cond_idempotent.2 ("abc".toList) (by decide)⟩

theorem jsParseInt_digit (l : Nat) (hl : l ≤ 9) :
    jsParseInt [Char.ofNat (48 + l)] = some (l : Int) := by
  interval_cases l <;> decide

theorem extractHeadings_skip (t : Token) (ts : List Token) (h : ¬ t.type = headingOpenT) :
    extractHeadings (t :: ts) = extractHeadings ts := by
  simp [extractHeadings, h]

theorem extract_tokensOf : ∀ hs : List (Nat × List Char), (∀ p ∈ hs, p.1 ≤ 9) →
    extractHeadings (tokensOfHeadings hs)
      = some ((hs.filter (fun p => decide (2 ≤ p.1) && decide (p.1 ≤ 3))).map
          (fun p => ⟨(p.1 : Int), p.2, slugify p.2⟩)) := by
  intro hs
  induction hs with
  | nil => intro _; rfl
  | cons p rest ih =>
    intro h
    obtain ⟨l, text⟩ := p
    have hl : l ≤ 9 := h (l, text) (by simp)
    have hrest := ih (fun q hq => h q (by simp [hq]))
    have hstep : extractHeadings (tokensOfHeadings ((l, text) :: rest))
        = match jsParseInt [Char.ofNat (48 + l)] with
          | some lv =>
            if 2 ≤ lv ∧ lv ≤ 3 then
              (extractHeadings (tokensOfHeadings rest)).map
                (fun hs => (⟨lv, text, slugify text⟩ : Heading) :: hs)
            else extractHeadings (tokensOfHeadings rest)
          | none => extractHeadings (tokensOfHeadings rest) := rfl
    rw [hstep, jsParseInt_digit l hl, hrest]
    by_cases h23 : 2 ≤ l ∧ l ≤ 3
    · have h23i : 2 ≤ (l : Int) ∧ (l : Int) ≤ 3 :=
        ⟨by exact_mod_cast h23.1, by exact_mod_cast h23.2⟩
      have hfc : List.filter (fun p => decide (2 ≤ p.1) && decide (p.1 ≤ 3)) ((l, text) :: rest)
          = (l, text) :: List.filter (fun p => decide (2 ≤ p.1) && decide (p.1 ≤ 3)) rest := by
        simp [List.filter_cons, h23.1, h23.2]
      rw [hfc]
      simp [h23i]
    · have h23i : ¬ (2 ≤ (l : Int) ∧ (l : Int) ≤ 3) := by
        intro hcon
        exact h23 ⟨by exact_mod_cast hcon.1, by exact_mod_cast hcon.2⟩
      have hb : (decide (2 ≤ l) && decide (l ≤ 3)) = false := by
        rcases Nat.lt_or_ge l 2 with hx | hx
        · simp [Nat.not_le.mpr hx]
        · have h3 : ¬ l ≤ 3 := fun hle => h23 ⟨hx, hle⟩
          simp [h3]
      have hfc : List.filter (fun p => decide (2 ≤ p.1) && decide (p.1 ≤ 3)) ((l, text) :: rest)
          = List.filter (fun p => decide (2 ≤ p.1) && decide (p.1 ≤ 3)) rest := by
        simp [List.filter_cons, hb]
      rw [hfc]
      simp [h23i]
      omega

theorem anchorIds_tokensOf : ∀ hs : List (Nat × List Char),
    anchorIds (tokensOfHeadings hs) = hs.map (fun p => slugify p.2) := by
  intro hs
  induction hs with
  | nil => rfl
  | cons p rest ih =>
    obtain ⟨l, text⟩ := p
    have hstep : anchorIds (tokensOfHeadings ((l, text) :: rest))
        = slugify text :: anchorIds (tokensOfHeadings rest) := rfl
    rw [hstep, ih]
    rfl

/-- C4. For every single-digit-level heading document, extractHeadings
returns exactly the headings of level 2 or 3, in original order, each
with its text and slug. -/
theorem extractHeadings_level_filter (hs : List (Nat × List Char)) (h : ∀ p ∈ hs, p.1 ≤ 9) :
    extractHeadings (tokensOfHeadings hs)
      = some ((hs.filter (fun p => decide (2 ≤ p.1) && decide (p.1 ≤ 3))).map
          (fun p => ⟨(p.1 : Int), p.2, slugify p.2⟩)) :=
  extract_tokensOf hs h

/-- C4 witness: a document with heading levels [1,2,3,4,2] keeps the
level 2, 3, 2 headings in that relative order. -/
theorem extractHeadings_level_filter_witness :
    (∀ p ∈ ([(1, "a".toList), (2, "b".toList), (3, "c".toList),
        (4, "d".toList), (2, "e".toList)] : List (Nat × List Char)), p.1 ≤ 9) ∧
    extractHeadings (tokensOfHeadings [(1, "a".toList), (2, "b".toList), (3, "c".toList),
        (4, "d".toList), (2, "e".toList)])
      = some [⟨2, "b".toList, slugify ("b".toList)⟩, ⟨3, "c".toList, slugify ("c".toList)⟩,
          ⟨2, "e".toList, slugify ("e".toList)⟩] := by
  constructor
  · decide
  · rw [extractHeadings_level_filter _ (by decide)]
    decide

/-- C1. On every document containing only level-2/3 headings, the ids
extractHeadings stores (the link targets of the TOC) coincide with the
ids the anchor injector attaches, both being the shared slug function
applied to the same heading texts. -/
theorem anchor_toc_ids_consistent (hs : List (Nat × List Char))
    (h : ∀ p ∈ hs, p.1 = 2 ∨ p.1 = 3) :
    ∃ heads : List Heading,
      extractHeadings (tokensOfHeadings hs) = some heads ∧
      heads.map Heading.id = anchorIds (tokensOfHeadings hs) ∧
      heads.map Heading.id = hs.map (fun p => slugify p.2) := by
  have hfilter : hs.filter (fun p => decide (2 ≤ p.1) && decide (p.1 ≤ 3)) = hs :=
    List.filter_eq_self.mpr (fun p hp => by rcases h p hp with h2 | h2 <;> simp [h2])
  refine ⟨_, extract_tokensOf hs (fun p hp => by rcases h p hp with h2 | h2 <;> omega), ?_, ?_⟩
  · rw [hfilter, anchorIds_tokensOf, List.map_map]
    rfl
  · rw [hfilter, List.map_map]
    rfl

/-- C1 witness: a two-heading document at levels 2 and 3. -/
theorem anchor_toc_ids_consistent_witness :
    (∀ p ∈ ([(2, "Intro".toList), (3, "Sub".toList)] : List (Nat × List Char)),
      p.1 = 2 ∨ p.1 = 3) ∧
    (∃ heads : List Heading,
      extractHeadings (tokensOfHeadings [(2, "Intro".toList), (3, "Sub".toList)]) = some heads ∧
      heads.map Heading.id = anchorIds (tokensOfHeadings [(2, "Intro".toList), (3, "Sub".toList)]) ∧
      heads.map Heading.id
        = ([(2, "Intro".toList), (3, "Sub".toList)] : List (Nat × List Char)).map
            (fun p => slugify p.2)) :=
  ⟨by decide, anchor_toc_ids_consistent _ (by decide)⟩

theorem wellFormed_tail (t : Token) (ts : List Token) (h : wellFormedHeadings (t :: ts)) :
    wellFormedHeadings ts := by
  intro i hi hty
  have := h (i + 1) (by simpa using Nat.succ_lt_succ hi) (by simpa using hty)
  simpa using this

theorem extract_isSome_of_wf : ∀ ts : List Token, wellFormedHeadings ts →
    (extractHeadings ts).isSome = true := by
  intro ts
  induction ts with
  | nil => intro _; rfl
  | cons t rest ih =>
    intro h
    obtain ⟨ty, tg, co⟩ := t
    by_cases ht : ty = headingOpenT
    · subst ht
      have h1 : 0 + 1 < ((⟨headingOpenT, tg, co⟩ : Token) :: rest).length :=
        h 0 (by simp) (by simp)
      cases rest with
      | nil => simp at h1
      | cons next rest' =>
        have hrec := ih (wellFormed_tail _ _ h)
        have hstep : extractHeadings ((⟨headingOpenT, tg, co⟩ : Token) :: next :: rest')
            = match jsParseInt (tg.drop 1) with
              | some lv =>
                if 2 ≤ lv ∧ lv ≤ 3 then
                  (extractHeadings (next :: rest')).map
                    (fun hs => (⟨lv, next.content, slugify next.content⟩ : Heading) :: hs)
                else extractHeadings (next :: rest')
              | none => extractHeadings (next :: rest') := rfl
        rw [hstep]
        cases hx : extractHeadings (next :: rest') with
        | none => rw [hx] at hrec; simp at hrec
        | some v =>
          cases hp : jsParseInt (tg.drop 1) with
          | none => rfl
          | some lv => by_cases h23 : 2 ≤ lv ∧ lv ≤ 3 <;> simp [h23]
    · rw [extractHeadings_skip _ rest ht]
      exact ih (wellFormed_tail _ rest h)

/-- C9. extractHeadings is total exactly under the precondition that
every heading_open token is followed by a further token: every
well-formed token sequence extracts successfully, while a sequence
ending in a heading_open token hits the out-of-bounds tokens[i+1]
access (none in this embedding). -/
theorem extractHeadings_bounds :
    (∀ ts : List Token, wellFormedHeadings ts → (extractHeadings ts).isSome = true) ∧
    extractHeadings [⟨headingOpenT, "h2".toList, []⟩] = none :=
  ⟨extract_isSome_of_wf, rfl⟩

/-- C9 witness: a concrete well-formed document extracts successfully;
the singleton heading_open document fails. -/
theorem extractHeadings_bounds_witness :
    wellFormedHeadings (tokensOfHeadings [(2, "A".toList)]) ∧
    (extractHeadings (tokensOfHeadings [(2, "A".toList)])).isSome = true ∧
    extractHeadings [⟨headingOpenT, "h2".toList, []⟩] = none :=
  ⟨by unfold wellFormedHeadings; decide,
    extractHeadings_bounds.1 _ (by unfold wellFormedHeadings; decide),
    extractHeadings_bounds.2⟩

theorem foldl_append_entries (f : Heading → List Char) :
    ∀ (l : List Heading) (init : List Char),
      l.foldl (fun acc h => acc ++ f h) init = init ++ (l.map f).flatten := by
  intro l
  induction l with
  | nil => intro init; simp
  | cons x xs ih => intro init; simp [ih, List.append_assoc]

/-- C8. generateTOC renders the empty string for no headings; for a
non-empty heading sequence it is a flat list: the header, then one
entry per heading in document order - a link to #id displaying the
text, carrying the toc-sub class exactly when the level is 3 - then
the footer, with no nesting computed whatever the level order. -/
theorem generateTOC_flat_list :
    generateTOC [] = [] ∧
    ∀ hs : List Heading, hs ≠ [] →
      generateTOC hs
        = tocHeader
          ++ (hs.map (fun h =>
              "  <li".toList
              ++ (if h.level = 3 then " class=\"toc-sub\"".toList else [])
              ++ "><a href=\"#".toList ++ h.id ++ "\">".toList ++ h.content
              ++ "</a></li>\n".toList)).flatten
          ++ tocFooter := by
  constructor
  · rfl
  · intro hs hne
    unfold generateTOC
    rw [if_neg (by simpa [List.length_eq_zero] using hne)]
    rw [foldl_append_entries tocEntry hs tocHeader]
    rfl

/-- C8 witness: a level-3 heading preceding a level-2 heading is still
rendered flat, in order, with only the level-3 entry classed. -/
theorem generateTOC_flat_list_witness :
    (([⟨3, "Deep".toList, "deep".toList⟩, ⟨2, "Top".toList, "top".toList⟩] : List Heading) ≠ []) ∧
    generateTOC [⟨3, "Deep".toList, "deep".toList⟩, ⟨2, "Top".toList, "top".toList⟩]
      = tocHeader
        ++ ((([⟨3, "Deep".toList, "deep".toList⟩, ⟨2, "Top".toList, "top".toList⟩] : List Heading).map
            (fun h =>
              "  <li".toList
              ++ (if h.level = 3 then " class=\"toc-sub\"".toList else [])
              ++ "><a href=\"#".toList ++ h.id ++ "\">".toList ++ h.content
              ++ "</a></li>\n".toList)).flatten)
        ++ tocFooter :=
  ⟨by decide, generateTOC_flat_list.2 _ (by decide)⟩

/-- C5. For every manifest and in-range index, the pager renders the
previous link to the entry before the index exactly when the index is
positive and the next link to the entry after it exactly when one
exists, an empty placeholder standing in for each absent link. -/
theorem generatePageNav_adjacent (pages : List Page) (i : Nat) (h : i < pages.length) :
    generatePageNav pages i =
      pageNavHeader
      ++ (if h0 : i = 0 then emptySlot else prevLink (pages.get ⟨i - 1, by omega⟩))
      ++ (if h1 : i + 1 < pages.length then nextLink (pages.get ⟨i + 1, h1⟩) else emptySlot)
      ++ pageNavFooter := by
  rcases Nat.eq_zero_or_pos i with h0 | h0
  · subst h0
    by_cases h1 : 0 + 1 < pages.length
    · have h1l : 0 < pages.length - 1 := by omega
      simp [generatePageNav, h1, h1l, List.get?_eq_get h1]
    · have h1l : ¬ (0 < pages.length - 1) := by omega
      simp [generatePageNav, h1, h1l]
  · obtain ⟨k, rfl⟩ : ∃ k, i = k + 1 := ⟨i - 1, by omega⟩
    have hk : k < pages.length := by omega
    by_cases h1 : k + 1 + 1 < pages.length
    · have h1l : k + 1 < pages.length - 1 := by omega
      simp [generatePageNav, h1, h1l, List.getElem?_eq_getElem h1, List.getElem?_eq_getElem hk]
    · have h1l : ¬ (k + 1 < pages.length - 1) := by omega
      simp [generatePageNav, h1, h1l, List.getElem?_eq_getElem hk]

/-- C5 witness: the third entry of the site manifest links back to the
second and forward to the fourth. -/
theorem generatePageNav_adjacent_witness :
    2 < sitePages.length ∧
    generatePageNav sitePages 2
      = pageNavHeader ++ prevLink (sitePages.get ⟨1, by decide⟩)
        ++ nextLink (sitePages.get ⟨3, by decide⟩) ++ pageNavFooter := by
  refine ⟨by decide, ?_⟩
  rw [generatePageNav_adjacent sitePages 2 (by decide)]
  rfl

/-- C6. Over the site manifest, the first entry renders the bare Home
breadcrumb and every other entry renders the Home link followed by a
slash and its title. -/
theorem breadcrumb_home_and_trail :
    sitePages.map (fun p => generateBreadcrumb p.title)
      = breadcrumbHome :: (sitePages.drop 1).map (fun p => breadcrumbTrail p.title) := by
  rfl

/-- C10. The pager of a one-entry manifest at index 0 has two empty
placeholders and no anchor element at all. -/
theorem pager_single_page_empty :
    (∀ p : Page, generatePageNav [p] 0 = pagerEmpty) ∧
    containsSub ("<a".toList) pagerEmpty = false :=
  ⟨fun _ => rfl, by decide⟩

theorem isPrefixOf_append_self : ∀ (p b : List Char), p.isPrefixOf (p ++ b) = true := by
  intro p
  induction p with
  | nil => intro b; cases b <;> rfl
  | cons x xs ih => intro b; simp [List.isPrefixOf, ih]

theorem drop_len_append (p b : List Char) : (p ++ b).drop p.length = b :=
  List.drop_left p b

theorem jsReplaceFirst_no_occurrence (pat repl : List Char) :
    ∀ s : List Char, containsSub pat s = false → jsReplaceFirst pat repl s = s := by
  intro s
  induction s with
  | nil =>
    intro h
    unfold containsSub at h
    unfold jsReplaceFirst
    rw [if_neg (by simp [h])]
  | cons c cs ih =>
    intro h
    unfold containsSub at h
    rw [Bool.or_eq_false_iff] at h
    unfold jsReplaceFirst
    rw [if_neg (by simp [h.1]), ih h.2]

theorem jsReplaceFirst_first_occurrence (pat repl : List Char) :
    ∀ (a b : List Char),
      (∀ n, n < a.length → pat.isPrefixOf ((a ++ (pat ++ b)).drop n) = false) →
      jsReplaceFirst pat repl (a ++ (pat ++ b)) = a ++ (repl ++ b) := by
  intro a
  induction a with
  | nil =>
    intro b _
    simp only [List.nil_append]
    cases pat with
    | nil => cases b <;> rfl
    | cons p ps =>
      rw [List.cons_append]
      unfold jsReplaceFirst
      have hpre : (p :: ps).isPrefixOf (p :: (ps ++ b)) = true := by
        rw [← List.cons_append]
        exact isPrefixOf_append_self (p :: ps) b
      rw [if_pos hpre, List.length_cons, List.drop_succ_cons, drop_len_append]
  | cons c a' ih =>
    intro b h
    have h0 : pat.isPrefixOf (c :: (a' ++ (pat ++ b))) = false := by
      have := h 0 (by simp)
      simpa using this
    show jsReplaceFirst pat repl (c :: (a' ++ (pat ++ b))) = c :: (a' ++ (repl ++ b))
    unfold jsReplaceFirst
    rw [if_neg (by simp [h0])]
    have hrec : jsReplaceFirst pat repl (a' ++ (pat ++ b)) = a' ++ (repl ++ b) := by
      apply ih
      intro n hn
      have := h (n + 1) (by simp; omega)
      simpa using this
    rw [hrec]

theorem composeTemplate_missing_toc (toc : List Char) :
    composeTemplate tplNoToc ("T0".toList) ("N0".toList) ("B0".toList) toc
        ("C0".toList) ("P0".toList)
      = "<html>T0|N0|B0|C0|P0</html>".toList := rfl

/-- C7. Placeholder substitution replaces only the first occurrence of
a placeholder token; a token absent from the template leaves the
template unchanged at that step, so the fragment is silently dropped
while composition still succeeds and the remaining placeholders are
still replaced, as the template missing the TOC placeholder shows for
every TOC fragment. -/
theorem template_substitution_props :
    (∀ pat repl s : List Char, containsSub pat s = false → jsReplaceFirst pat repl s = s) ∧
    (∀ (pat repl a b : List Char),
      (∀ n, n < a.length → pat.isPrefixOf ((a ++ (pat ++ b)).drop n) = false) →
      jsReplaceFirst pat repl (a ++ (pat ++ b)) = a ++ (repl ++ b)) ∧
    (∀ toc : List Char,
      composeTemplate tplNoToc ("T0".toList) ("N0".toList) ("B0".toList) toc
          ("C0".toList) ("P0".toList)
        = "<html>T0|N0|B0|C0|P0</html>".toList) :=
  ⟨fun pat repl s => jsReplaceFirst_no_occurrence pat repl s,
   fun pat repl a b h => jsReplaceFirst_first_occurrence pat repl a b h,
   fun toc => composeTemplate_missing_toc toc⟩

/-- C7 witness: concrete instances of all three parts; in the second,
only the first of the two pattern occurrences is replaced. -/
theorem template_substitution_witness :
    (containsSub ("xy".toList) ("ab".toList) = false ∧
      jsReplaceFirst ("xy".toList) ("Z".toList) ("ab".toList) = "ab".toList) ∧
    ((∀ n, n < ("a".toList).length →
        ("b".toList).isPrefixOf ((("a".toList) ++ (("b".toList) ++ ("b".toList))).drop n)
          = false) ∧
      jsReplaceFirst ("b".toList) ("Z".toList) (("a".toList) ++ (("b".toList) ++ ("b".toList)))
        = ("a".toList) ++ (("Z".toList) ++ ("b".toList))) ∧
    composeTemplate tplNoToc ("T0".toList) ("N0".toList) ("B0".toList) ("XTOC".toList)
        ("C0".toList) ("P0".toList)
      = "<html>T0|N0|B0|C0|P0</html>".toList :=
  ⟨⟨by decide, template_substitution_props.1 _ _ _ (by decide)⟩,
   ⟨by decide, template_substitution_props.2.1 _ _ _ _ (by decide)⟩,
   template_substitution_props.2.2 _⟩

end SiteBuild
